import Mathlib

/-!
Shallow embedding of the translation application engine of `translations_applicator.py`
(function `process_single_file` and its inner helpers `get_contextual_translation` and
`replace_content`), together with the special-case registry loading code.

Conventions of the embedding:
* Python strings are Lean `String`s; most scanning helpers work on `List Char`
  (`String.data`).  Python's ASCII-range behaviour of `str.lower`, `str.isdigit`,
  `str.isspace` and the regex classes `\w`, `\b` is modelled on ASCII characters,
  which covers every string appearing in the repository's data files.
* Python dicts are association lists with first-match lookup (`alookup`); dict
  assignment is `ainsert`, which removes any previous binding of the key.
* Python `None`-or-string results are `Option String`; Python truthiness tests
  (`if x:`) on such results are `otruthy`, which is false for `none` and for `""`.
* The compiled regular expressions of the partial-substitution engine are literal
  terms with word-boundary flags (source lines 619-635); `re.sub`/`re.search` on
  them are `subAll`/`searchHas`, which scan left to right, non-overlapping, exactly
  as the regex engine does for these patterns.
* The arbitrary user-supplied regexes of `transform_translation` patterns are
  modelled as their compiled match function `String → Option RMatch`
  (`re.search` returning `group(0)` and the list of participating capture groups);
  templates are pre-split into literal/variable pieces, and `str.format` on them
  is `formatTemplate`, which fails exactly when the template names an unbound
  variable (Python's `KeyError`).
* Python's `set` of all dictionary terms has unspecified iteration order, so the
  term index is modelled as `sorted_terms_of enum` for an arbitrary enumeration
  `enum` of the distinct keys (`isSetEnumB`).
-/

set_option maxRecDepth 4000

namespace PokeTranslator

/-! ### Generic string / list helpers (ASCII models of the Python primitives) -/

/-- ASCII model of Python `str.isspace` characters relevant to `split()`/`strip()`. -/
def pyIsSpace (c : Char) : Bool :=
  c == ' ' || c == '\t' || c == '\n' || c == '\r' || c == '\x0b' || c == '\x0c'

/-- Python `str.strip()`. -/
def stripL (l : List Char) : List Char :=
  ((l.dropWhile pyIsSpace).reverse.dropWhile pyIsSpace).reverse

/-- Python `str.lower()` (ASCII). -/
def toLowerL (l : List Char) : List Char := l.map Char.toLower

def isPrefixL : List Char → List Char → Bool
  | [], _ => true
  | _ :: _, [] => false
  | a :: ta, b :: tb => a == b && isPrefixL ta tb

/-- Python substring containment `needle in hay`. -/
def isInfixL : List Char → List Char → Bool
  | n, [] => n.isEmpty
  | n, h :: t => isPrefixL n (h :: t) || isInfixL n t

/-- Python `str.split()` with no separator: split on whitespace runs. -/
def splitWsGo : List Char → List Char → List (List Char)
  | acc, [] => if acc.isEmpty then [] else [acc.reverse]
  | acc, c :: rest =>
    if pyIsSpace c then
      if acc.isEmpty then splitWsGo [] rest
      else acc.reverse :: splitWsGo [] rest
    else splitWsGo (c :: acc) rest

def splitWs (l : List Char) : List (List Char) := splitWsGo [] l

/-- Python `str.split(sep)` for a one-character separator (keeps empty pieces). -/
def splitOnChar (sep : Char) : List Char → List (List Char)
  | [] => [[]]
  | c :: rest =>
    if c == sep then [] :: splitOnChar sep rest
    else
      match splitOnChar sep rest with
      | [] => [[c]]
      | h :: t => (c :: h) :: t

/-! ### Decimal digits: `str(int)` and `int(str)` -/

def digitChar (n : Nat) : Char := Char.ofNat (48 + n % 10)

def digitVal (c : Char) : Option Nat :=
  if '0' ≤ c && c ≤ '9' then some (c.toNat - 48) else none

/-- ASCII model of Python `str.isdigit` on one character. -/
def isPyDigit (c : Char) : Bool := (digitVal c).isSome

/-- Decimal digits of `n`, most significant first (fuel-structured so it reduces). -/
def natDigitsAux : Nat → Nat → List Char
  | 0, _ => []
  | f + 1, n =>
    if n < 10 then [digitChar n]
    else natDigitsAux f (n / 10) ++ [digitChar (n % 10)]

/-- Python `str(n)` for a natural number. -/
def natStr (n : Nat) : String := ⟨natDigitsAux (n + 1) n⟩

def parseDigitsAux : Nat → List Char → Option Nat
  | acc, [] => some acc
  | acc, c :: rest =>
    match digitVal c with
    | some d => parseDigitsAux (acc * 10 + d) rest
    | none => none

/-- Python `int(s)` restricted to the digit/`.` strings the range guard lets through:
succeeds exactly on non-empty all-digit strings. -/
def parseDigits (l : List Char) : Option Nat :=
  if l.isEmpty then none else parseDigitsAux 0 l

/-! ### Association lists: Python dicts -/

abbrev Dict := List (String × String)

def alookup {α : Type} : List (String × α) → String → Option α
  | [], _ => none
  | (k, v) :: t, key => if k == key then some v else alookup t key

/-- Python dict assignment `m[k] = v` (removes any previous binding of `k`). -/
def ainsert {α : Type} (m : List (String × α)) (k : String) (v : α) :
    List (String × α) :=
  (m.filter fun p => !(p.1 == k)) ++ [(k, v)]

/-- Python truthiness of an optional string (`if x:` where `x` is `None` or `str`). -/
def otruthy : Option String → Bool
  | none => false
  | some s => !s.data.isEmpty

/-! ### Word-boundary literal-term regexes (source lines 619-635, 764, 789-794)

The engine compiles, for each dictionary term, the pattern
`\b term \b` (dropping the boundary on the side where the term starts/ends with
punctuation), optionally case-insensitive.  `matchHere` is the regex-engine test
for a match starting at the current position, `searchHas` is `pattern.search`,
`subAll` is `pattern.sub` (all non-overlapping occurrences, left to right). -/

/-- ASCII model of the regex word-character class `\w`. -/
def isWC (c : Char) : Bool :=
  ('a' ≤ c && c ≤ 'z') || ('A' ≤ c && c ≤ 'Z') || ('0' ≤ c && c ≤ '9') || c == '_'

def chEq (ci : Bool) (a b : Char) : Bool :=
  if ci then a.toLower == b.toLower else a == b

def matchesAt (ci : Bool) : List Char → List Char → Bool
  | [], _ => true
  | _ :: _, [] => false
  | a :: ta, b :: tb => chEq ci a b && matchesAt ci ta tb

def wcOpt : Option Char → Bool
  | some c => isWC c
  | none => false

def matchHere (ci lb rb : Bool) (t : List Char) (prev : Option Char)
    (h : List Char) : Bool :=
  matchesAt ci t h
  && (!lb || (wcOpt prev != wcOpt h.head?))
  && (!rb || (wcOpt (h.take t.length).getLast? != wcOpt (h.drop t.length).head?))

def searchHas (ci lb rb : Bool) (t : List Char) : Option Char → List Char → Bool
  | _, [] => false
  | prev, c :: rest =>
    matchHere ci lb rb t prev (c :: rest) || searchHas ci lb rb t (some c) rest

def subAllGo (ci lb rb : Bool) (t repl : List Char) :
    Nat → Option Char → List Char → List Char
  | 0, _, h => h
  | _ + 1, _, [] => []
  | f + 1, prev, c :: rest =>
    if matchHere ci lb rb t prev (c :: rest) && !t.isEmpty then
      repl ++ subAllGo ci lb rb t repl f ((c :: rest).take t.length).getLast?
        (rest.drop (t.length - 1))
    else
      c :: subAllGo ci lb rb t repl f (some c) rest

def subAll (ci lb rb : Bool) (t repl hay : List Char) : List Char :=
  subAllGo ci lb rb t repl (hay.length + 1) none hay

def pyPunct : List Char := ['.', '!', '?', ',', ':', ';']

/-- Which word boundaries the compiled pattern of a term keeps
(source lines 625-633: a punctuation *last* character drops the right boundary,
else a punctuation *first* character drops the left boundary). -/
def boundaryFlags (t : List Char) : Bool × Bool :=
  match t.getLast?, t.head? with
  | some lastC, some firstC =>
    if pyPunct.contains lastC then (true, false)
    else if pyPunct.contains firstC then (false, true)
    else (true, true)
  | _, _ => (true, true)

/-! ### The parenthesis regex `\(([^)]+)\)` (source lines 558, 810) -/

/-- Greedy body of `([^)]+)\)`: the (non-empty) characters before the next `)`,
and the rest after that `)`. -/
def takeInner (l : List Char) : Option (List Char × List Char) :=
  match l.dropWhile (fun c => !(c == ')')) with
  | ')' :: after =>
    let inner := l.takeWhile fun c => !(c == ')')
    if inner.isEmpty then none else some (inner, after)
  | _ => none

/-- Content of the first match of `\(([^)]+)\)` (`re.search`, source line 558). -/
def firstParen : List Char → Option (List Char)
  | [] => none
  | '(' :: rest =>
    match takeInner rest with
    | some (inner, _) => some inner
    | none => firstParen rest
  | _ :: rest => firstParen rest

/-- `re.sub(r'\(([^)]+)\)', translate_parentheses_content, text)`
(source lines 803-810): every parenthesized span whose content is a type-dictionary
key is replaced by its type translation, in place. -/
def parenPostPass (typeT : Dict) : Nat → List Char → List Char
  | 0, l => l
  | _ + 1, [] => []
  | f + 1, '(' :: rest =>
    match takeInner rest with
    | some (inner, after) =>
      (match alookup typeT ⟨inner⟩ with
       | some tr => '(' :: tr.data ++ ')' :: parenPostPass typeT f after
       | none => '(' :: inner ++ ')' :: parenPostPass typeT f after)
    | none => '(' :: parenPostPass typeT f rest
  | f + 1, c :: rest => c :: parenPostPass typeT f rest

/-! ### Registry payloads and the engine state -/

structure OverridePayload where
  translation : String
  reason : String
deriving DecidableEq

structure RMatch where
  matched : String
  groups : List String
deriving DecidableEq

inductive TItem
  | lit (s : String)
  | var (s : String)
deriving DecidableEq

structure PatternConfig where
  regex : Option (String → Option RMatch)
  template : Option (List TItem)
  description : String

structure TransformPayload where
  patterns : List PatternConfig
  reason : String

structure LegacyCase where
  caseType : String
  translations : Dict
  reason : String

/-- The immutable per-document state consumed by `replace_content`:
the five term dictionaries, the registry maps and the pre-compiled term index
(fields named after the source variables). -/
structure TransCtx where
  translations : Dict
  type_translations : Dict
  move_translations : Dict
  ability_translations : Dict
  item_translations : Dict
  global_add_translations : Dict
  global_override_translations : List (String × OverridePayload)
  global_no_translation_ids : List String
  global_transform_translations : List (String × TransformPayload)
  special_cases : List (String × LegacyCase)
  sorted_terms : List String

/-! ### `get_contextual_translation` (source lines 527-606) -/

def conversationalPhrases : List String :=
  ["hello", "hi ", "thank you", "would you like", "do you want",
   "i am", "i can", "it is", "the user", "the target", "this move",
   "you have", "sorry", "congratulations", "welcome"]

def typeIndicators : List String :=
  ["incense", "plate", "berry", "gem", "type", "resistance", "weakness",
   "power", "boost", "stone", "charm"]

def moveIndicators : List String :=
  ["learns", "teach", "tutor", "tm", "level up", "move", "attack", "skill"]

def abilityIndicators : List String :=
  ["ability", "abilities", "hidden", "effect", "activates"]

/-- `get_contextual_translation(english_term, context_text)`. -/
def get_contextual_translation (ctx : TransCtx)
    (english_term context_text : String) : Option String :=
  let context_lower := toLowerL context_text.data
  let is_description :=
    decide (context_text.length > 50)
    || conversationalPhrases.any fun p => isInfixL p.data context_lower
  if is_description && (splitWs english_term.data).length == 1 then none
  else
    let parenHit : Option String :=
      if context_text.data.contains '(' && context_text.data.contains ')' then
        match firstParen context_text.data with
        | some inner =>
          if english_term.data == inner then
            alookup ctx.type_translations english_term
          else none
        | none => none
      else none
    match parenHit with
    | some v => some v
    | none =>
      match alookup ctx.item_translations english_term with
      | some v => some v
      | none =>
        match alookup ctx.move_translations english_term with
        | some v => some v
        | none =>
          match alookup ctx.ability_translations english_term with
          | some v => some v
          | none =>
            if (typeIndicators.any fun i => isInfixL i.data context_lower)
                && (alookup ctx.type_translations english_term).isSome then
              alookup ctx.type_translations english_term
            else if !is_description
                && (moveIndicators.any fun i => isInfixL i.data context_lower)
                && (alookup ctx.move_translations english_term).isSome then
              alookup ctx.move_translations english_term
            else if (abilityIndicators.any fun i => isInfixL i.data context_lower)
                && (alookup ctx.ability_translations english_term).isSome then
              alookup ctx.ability_translations english_term
            else if (splitWs context_text.data).length ≤ 3
                || english_term == context_text then
              alookup ctx.translations english_term
            else none

/-! ### The default path (source lines 777-810) -/

/-- One iteration of the pre-compiled pattern loop (source lines 789-794). -/
def applyTermSub (ctx : TransCtx) (original : String) (working : List Char)
    (term : String) : List Char :=
  let fl := boundaryFlags term.data
  if searchHas true fl.1 fl.2 term.data none working then
    match get_contextual_translation ctx term original with
    | some tr =>
      if tr.data.isEmpty then working
      else subAll true fl.1 fl.2 term.data tr.data working
    | none => working
  else working

/-- The partial-substitution loop over the sorted term index. -/
def partialSub (ctx : TransCtx) (original : String) : List Char :=
  ctx.sorted_terms.foldl (applyTermSub ctx original) original.data

/-- "Normal translation logic" (source lines 777-810): whole-text contextual
resolution, else partial substitution; then the parenthesis post-pass.
Returns the final value of the Python variable `translated_text`. -/
def defaultPath (ctx : TransCtx) (original_text : String) : Option String :=
  let contextual := get_contextual_translation ctx original_text original_text
  let translated :=
    if otruthy contextual then contextual
    else
      let working := partialSub ctx original_text
      if working == original_text.data then none else some (⟨working⟩ : String)
  match translated with
  | none => none
  | some t =>
    if t.data.contains '(' && t.data.contains ')' then
      some ⟨parenPostPass ctx.type_translations (t.data.length + 1) t.data⟩
    else some t

/-! ### The per-record cascade `replace_content` (source lines 649-821) -/

/-- The emitted body text plus the deltas to the three counters
`translated_count`, `not_translated_count`, `special_cases_applied`. -/
structure CascadeOut where
  body : String
  dTrans : Nat
  dNoTrans : Nat
  dSpecial : Nat
deriving DecidableEq

/-- Lines 812-821: emit `translated_text` if truthy, else the original fragment. -/
def normalLogic (ctx : TransCtx) (bodyText : String) : CascadeOut :=
  let original_text : String := ⟨stripL bodyText.data⟩
  match defaultPath ctx original_text with
  | some t => if t.data.isEmpty then ⟨bodyText, 0, 1, 0⟩ else ⟨t, 1, 0, 0⟩
  | none => ⟨bodyText, 0, 1, 0⟩

/-- The word-boundary, case-sensitive substitution loop of a legacy
`add_translation` special case (source lines 763-766). -/
def legacyAddTransSub (temp : Dict) (original : List Char) : List Char :=
  temp.foldl
    (fun w p =>
      if searchHas false true true p.1.data none w then
        subAll false true true p.1.data p.2.data w
      else w)
    original

/-- Steps 4-5 of the cascade: legacy special cases (lines 742-775), then the
default path. -/
def afterTransform (ctx : TransCtx) (string_id bodyText : String) : CascadeOut :=
  let original_text : String := ⟨stripL bodyText.data⟩
  match alookup ctx.special_cases string_id with
  | some cs =>
    if cs.caseType == "no_translation" then ⟨bodyText, 0, 1, 1⟩
    else if cs.caseType == "add_translation" then
      if cs.translations.isEmpty then normalLogic ctx bodyText
      else
        let working := legacyAddTransSub cs.translations original_text.data
        if working == original_text.data then
          let r := normalLogic ctx bodyText
          ⟨r.body, r.dTrans, r.dNoTrans, r.dSpecial + 1⟩
        else ⟨⟨working⟩, 1, 0, 1⟩
    else normalLogic ctx bodyText
  | none => normalLogic ctx bodyText

/-- The template variables dict (source lines 704-727): `original`, `match`,
`group1..N`, `translated`. -/
def groupVars (i : Nat) : List String → List (String × String)
  | [] => []
  | g :: rest => (("group") ++ natStr i, g) :: groupVars (i + 1) rest

def mkTemplateVars (original : String) (m : RMatch) (translatedVar : String) :
    List (String × String) :=
  (("original"), original) :: (("match"), m.matched) ::
    groupVars 1 m.groups ++ [(("translated"), translatedVar)]

/-- `template.format(**template_vars)`: `none` is Python's `KeyError`. -/
def formatTemplate (vars : List (String × String)) : List TItem → Option String
  | [] => some ""
  | TItem.lit s :: rest => (formatTemplate vars rest).map fun r => s ++ r
  | TItem.var n :: rest =>
    match alookup vars n with
    | some v => (formatTemplate vars rest).map fun r => v ++ r
    | none => none

inductive TOutcome
  | emit (s : String)
  | pass

/-- The transform pattern loop (source lines 693-740): first matching pattern
wins; a template `KeyError` logs and `break`s, i.e. falls through. -/
def runTransformPatterns (ctx : TransCtx) (original_text : String) :
    List PatternConfig → TOutcome
  | [] => TOutcome.pass
  | p :: rest =>
    match p.regex, p.template with
    | some rg, some tpl =>
      (match rg original_text with
       | none => runTransformPatterns ctx original_text rest
       | some m =>
         let main_term := match m.groups with
           | [] => original_text
           | g :: _ => g
         let tt := match alookup ctx.global_add_translations main_term with
           | some v => some v
           | none => get_contextual_translation ctx main_term original_text
         let translatedVar := match tt with
           | some s => if s.data.isEmpty then main_term else s
           | none => main_term
         match formatTemplate (mkTemplateVars original_text m translatedVar) tpl with
         | some result => TOutcome.emit result
         | none => TOutcome.pass)
    | _, _ => runTransformPatterns ctx original_text rest

/-- The whole per-record cascade (`replace_content`, source lines 649-821),
acting on the text between the record's tags. -/
def replace_content (ctx : TransCtx) (string_id bodyText : String) : CascadeOut :=
  let original_text : String := ⟨stripL bodyText.data⟩
  if original_text.data.isEmpty then ⟨bodyText, 0, 0, 0⟩
  else
    match alookup ctx.global_override_translations string_id with
    | some ov => ⟨ov.translation, 1, 0, 1⟩
    | none =>
      if ctx.global_no_translation_ids.contains string_id then ⟨bodyText, 0, 1, 1⟩
      else
        match alookup ctx.global_transform_translations string_id with
        | some td =>
          if td.patterns.isEmpty then afterTransform ctx string_id bodyText
          else
            (match runTransformPatterns ctx original_text td.patterns with
             | TOutcome.emit r => ⟨r, 1, 0, 1⟩
             | TOutcome.pass =>
               let res := afterTransform ctx string_id bodyText
               ⟨res.body, res.dTrans, res.dNoTrans, res.dSpecial + 1⟩)
        | none => afterTransform ctx string_id bodyText

/-- What `re.sub` writes back for one matched record: the preserved opening tag,
the emitted body and the closing tag (every return of `replace_content` has this
shape; `match.group(0)` is `opening ++ body ++ closing`). -/
def replaceFragment (ctx : TransCtx) (opening string_id bodyText closing : String) :
    String :=
  opening ++ (replace_content ctx string_id bodyText).body ++ closing

/-! ### Special-case registry loading: range expansion (source lines 341-473)

`rangeGuard` is the test
`"-" in id_item and id_item.replace("-","").replace(".","").isdigit()`;
`parseRangeParts` is `start, end = id_item.split("-"); int(start); int(end)`,
with `none` for the `ValueError`s the source catches (logged as a malformed-range
error).  The second component of each loader's result counts those logged
`Error parsing ... range` messages. -/

def rangeGuard (l : List Char) : Bool :=
  (l.any fun c => c == '-')
  && (let cleaned := l.filter fun c => !(c == '-') && !(c == '.')
      !cleaned.isEmpty && cleaned.all isPyDigit)

def parseRangeParts (l : List Char) : Option (Nat × Nat) :=
  match splitOnChar '-' l with
  | [a, b] =>
    (match parseDigits a, parseDigits b with
     | some x, some y => some (x, y)
     | _, _ => none)
  | _ => none

/-- `range(start_id, end_id + 1)` as a list. -/
def expandRange (a b : Nat) : List Nat :=
  (List.range (b + 1 - a)).map fun j => a + j

/-- The range string `"<a>-<b>"`. -/
def rangeId (a b : Nat) : String := ⟨(natStr a).data ++ '-' :: (natStr b).data⟩

/-- An `override_translation` entry `{id, translation, reason}` (lines 345-349). -/
structure OverrideEntry where
  id : String
  translation : String
  reason : String

/-- Loading one `override_translation` entry into the map (lines 351-376). -/
def loadOverrideStep (st : List (String × OverridePayload) × Nat)
    (e : OverrideEntry) : List (String × OverridePayload) × Nat :=
  let payload : OverridePayload := ⟨e.translation, e.reason⟩
  if rangeGuard e.id.data then
    match parseRangeParts e.id.data with
    | some ab =>
      ((expandRange ab.1 ab.2).foldl (fun m i => ainsert m (natStr i) payload) st.1,
       st.2)
    | none => (st.1, st.2 + 1)
  else (ainsert st.1 e.id payload, st.2)

def loadOverrideTranslations (entries : List OverrideEntry) :
    List (String × OverridePayload) × Nat :=
  entries.foldl loadOverrideStep ([], 0)

/-- A `no_translation` entry `{id, comment}` (lines 426-429). -/
structure NoTrEntry where
  id : String
  comment : String

/-- Python `set.add`. -/
def sinsert (s : List String) (k : String) : List String :=
  if s.contains k then s else s ++ [k]

/-- Loading one `no_translation` entry into the id set (lines 431-450). -/
def loadNoTranslationStep (st : List String × Nat) (e : NoTrEntry) :
    List String × Nat :=
  if rangeGuard e.id.data then
    match parseRangeParts e.id.data with
    | some ab =>
      ((expandRange ab.1 ab.2).foldl (fun s i => sinsert s (natStr i)) st.1, st.2)
    | none => (st.1, st.2 + 1)
  else (sinsert st.1 e.id, st.2)

def loadNoTranslationIds (entries : List NoTrEntry) : List String × Nat :=
  entries.foldl loadNoTranslationStep ([], 0)

/-! ### The derived term index (source lines 608-635)

`all_terms` is a Python `set`, whose iteration order is unspecified; the model
quantifies over any enumeration (`isSetEnumB enum keys`) of the distinct keys.
`sorted(all_terms, key=len, reverse=True)` is a stable descending-by-length
sort, i.e. `List.insertionSort lenGE`. -/

def dictKeys (d : Dict) : List String := d.map fun p => p.1

/-- The distinct keys of the five dictionaries in first-discovery order
(the `all_terms.update(...)` calls of lines 610-614). -/
def dedupFirst : List String → List String
  | [] => []
  | a :: t => a :: (dedupFirst t).filter fun b => !(b == a)

def discoveryKeys (g ty mv ab it : Dict) : List String :=
  dedupFirst (dictKeys g ++ dictKeys ty ++ dictKeys mv ++ dictKeys ab ++ dictKeys it)

def listNodupB : List String → Bool
  | [] => true
  | a :: t => !t.contains a && listNodupB t

/-- `enum` is a possible iteration order of the Python set with element list `ks`. -/
def isSetEnumB (enum ks : List String) : Bool :=
  listNodupB enum && (ks.all fun k => enum.contains k)
    && (enum.all fun k => ks.contains k)

/-- `sorted(..., key=len, reverse=True)` compares by this relation. -/
def lenGE (a b : String) : Prop := b.length ≤ a.length

instance : DecidableRel lenGE := fun a b =>
  inferInstanceAs (Decidable (b.length ≤ a.length))

instance : IsTotal String lenGE := ⟨fun a b => Nat.le_total b.length a.length⟩

instance : IsTrans String lenGE := ⟨fun _ _ _ h1 h2 => Nat.le_trans h2 h1⟩

/-- The sorted term index built from a set enumeration (source line 617). -/
def sorted_terms_of (enum : List String) : List String :=
  List.insertionSort lenGE enum

/-! ### Document pipeline and the deferred block applicator (lines 641-844) -/

/-- A document pre-split by the record regex
`(<string\s+id="([^"]+)"[^>]*>)(.*?)(</string>)`: the literal text between
records, and the matched records (opening tag, id, body, closing tag). -/
inductive DocSeg
  | raw (s : String)
  | record (opening string_id bodyText closing : String)

def substituteSeg (ctx : TransCtx) : DocSeg → String
  | DocSeg.raw s => s
  | DocSeg.record o i b c => replaceFragment ctx o i b c

/-- `re.sub(string_pattern, replace_content, xml_content)` (source line 824). -/
def substituteDoc (ctx : TransCtx) (doc : List DocSeg) : String :=
  (doc.map (substituteSeg ctx)).foldl (fun a b => a ++ b) (("") : String)

/-- `input_file.replace("\\", "/")` (source line 830). -/
def normalizeSlashes (s : String) : String :=
  ⟨s.data.map fun c => if c == '\\' then '/' else c⟩

structure BlockInfo where
  content : String
  reason : String
deriving DecidableEq

/-- `xml_content.rfind("</")`: the start index of the last occurrence. -/
def lastInfixPosGo (pat : List Char) : Nat → Option Nat → List Char → Option Nat
  | _, best, [] => best
  | i, best, c :: rest =>
    lastInfixPosGo pat (i + 1)
      (if isPrefixL pat (c :: rest) then some i else best) rest

def lastInfixPos (l pat : List Char) : Option Nat := lastInfixPosGo pat 0 none l

/-- Applying one `add_block` entry (source lines 828-844).  The second component
counts the logged `closing tag not found` failures. -/
def applyAddBlockStep (inputFile : String) (st : String × Nat)
    (entry : String × BlockInfo) : String × Nat :=
  if entry.1 == normalizeSlashes inputFile then
    if entry.2.content.data.isEmpty then st
    else
      match lastInfixPos st.1.data ['<', '/'] with
      | some p =>
        (⟨st.1.data.take p ++ entry.2.content.data ++ '\n' :: st.1.data.drop p⟩,
         st.2)
      | none => (st.1, st.2 + 1)
  else st

def applyAddBlocks (blocks : List (String × BlockInfo)) (inputFile text : String) :
    String × Nat :=
  blocks.foldl (applyAddBlockStep inputFile) (text, 0)

/-- The document-level pipeline of `process_single_file`: all record
substitutions first (line 824), the deferred blocks strictly afterwards
(lines 827-844). -/
def process_document (ctx : TransCtx) (doc : List DocSeg)
    (blocks : List (String × BlockInfo)) (inputFile : String) : String × Nat :=
  applyAddBlocks blocks inputFile (substituteDoc ctx doc)

/-! ### Template-variable vocabulary (source lines 704-727) -/

/-- The names `group1..N` that `enumerate(regex_match.groups(), 1)` defines. -/
def groupNames (i : Nat) : List String → List String
  | [] => []
  | _ :: rest => (("group") ++ natStr i) :: groupNames (i + 1) rest

/-- Every variable name bound in `template_vars` for a given match. -/
def templateVarNames (m : RMatch) : List String :=
  ("original") :: ("match") :: groupNames 1 m.groups ++ [(("translated"))]

/-- The template references a variable outside `original`, `match`,
`group1..N`, `translated` — the condition for Python's `KeyError`. -/
def hasUndefinedTemplateVar (tpl : List TItem) (m : RMatch) : Bool :=
  tpl.any fun it =>
    match it with
    | TItem.var n => !(templateVarNames m).contains n
    | TItem.lit _ => false

/-! ### Concrete engine states used by the witnesses and counterexamples -/

/-- State of the §8 "Fire type" scenario: type dictionary `{"Fire": "Fuoco"}`,
all other dictionaries and the whole registry empty; the term index of this
state is necessarily `["Fire"]`. -/
def fireCtx : TransCtx :=
  ⟨[], [("Fire", "Fuoco")], [], [], [], [], [], [], [], [], ["Fire"]⟩

/-- State with `"Psychic"` a key of the type dictionary only. -/
def psychicCtx : TransCtx :=
  ⟨[], [("Psychic", "Psico")], [], [], [], [], [], [], [], [], ["Psychic"]⟩

/-- Compiled matcher of a regex that matches the whole text `"Fire type"`
with no capture groups (e.g. `^Fire type$`). -/
def rgFire : String → Option RMatch :=
  fun s => if s == "Fire type" then some ⟨"Fire type", []⟩ else none

/-- A transform pattern whose template names the undefined variable `nope`. -/
def badVarPattern : PatternConfig :=
  ⟨some rgFire, some [TItem.var ("nope")], "d"⟩

/-- State with a `transform_translation` entry for id `"7"` whose only pattern
matches but has a bad template, plus the type dictionary `{"Fire": "Fuoco"}`. -/
def transformCtx : TransCtx :=
  ⟨[], [("Fire", "Fuoco")], [], [], [], [], [], [],
   [("7", ⟨[badVarPattern], "r"⟩)], [], ["Fire"]⟩

/-- State whose id `"3"` is both in `global_override_translations` (translation
`"Ciao"`) and in `global_no_translation_ids`. -/
def overrideCtx : TransCtx :=
  ⟨[], [], [], [], [], [], [("3", ⟨"Ciao", "r"⟩)], ["3"], [], [], []⟩

/-- The empty engine state. -/
def emptyCtx : TransCtx :=
  ⟨[], [], [], [], [], [], [], [], [], [], []⟩

/-- A small one-record document for the deferred-block witness. -/
def addBlockDoc : List DocSeg :=
  [DocSeg.raw ("<x>\n"),
   DocSeg.record ("<string id=\"1\">") ("1") ("Hi") ("</string>"),
   DocSeg.raw ("\n")]

/-! ## Theorems -/

/-! ### Computation lemmas for the cascade's short-circuiting prefix -/

theorem replace_content_of_empty (ctx : TransCtx) (string_id bodyText : String)
    (he : (stripL bodyText.data).isEmpty = true) :
    replace_content ctx string_id bodyText = ⟨bodyText, 0, 0, 0⟩ := by
  unfold replace_content
  simp [he]

theorem replace_content_of_override (ctx : TransCtx) (ov : OverridePayload)
    (string_id bodyText : String)
    (he : (stripL bodyText.data).isEmpty = false)
    (hov : alookup ctx.global_override_translations string_id = some ov) :
    replace_content ctx string_id bodyText = ⟨ov.translation, 1, 0, 1⟩ := by
  unfold replace_content
  simp [he, hov]

theorem replace_content_of_notr (ctx : TransCtx) (string_id bodyText : String)
    (he : (stripL bodyText.data).isEmpty = false)
    (hov : alookup ctx.global_override_translations string_id = none)
    (hnt : ctx.global_no_translation_ids.contains string_id = true) :
    replace_content ctx string_id bodyText = ⟨bodyText, 0, 1, 1⟩ := by
  have hnt' : string_id ∈ ctx.global_no_translation_ids := by simpa using hnt
  unfold replace_content
  simp [he, hov, hnt']

/-! ### C1, C6, C8: the short-circuiting prefix of the cascade -/

/-- C1: for every record (with non-empty stripped text, the precondition for the
cascade to run at all) whose id is both in the global override map and in the
global no-translation set, the cascade emits the opening tag, the override's
translation and the closing tag — never the original text — because the override
check (source line 665) precedes the no-translation check (line 678). -/
theorem override_beats_no_translation (ctx : TransCtx) (ov : OverridePayload)
    (opening string_id bodyText closing : String)
    (hov : alookup ctx.global_override_translations string_id = some ov)
    (hnt : ctx.global_no_translation_ids.contains string_id = true)
    (hne : (stripL bodyText.data).isEmpty = false) :
    replaceFragment ctx opening string_id bodyText closing
      = opening ++ ov.translation ++ closing
    ∧ (replace_content ctx string_id bodyText).body = ov.translation := by
  have h := replace_content_of_override ctx ov string_id bodyText hne hov
  exact ⟨by unfold replaceFragment; rw [h], by rw [h]⟩

/-- Witness for C1 at the concrete state `overrideCtx` (id `"3"` in both maps). -/
theorem override_beats_no_translation_witness :
    (alookup overrideCtx.global_override_translations ("3") = some ⟨"Ciao", "r"⟩
      ∧ overrideCtx.global_no_translation_ids.contains ("3") = true
      ∧ (stripL ("Hello" : String).data).isEmpty = false)
    ∧ replaceFragment overrideCtx ("<s>") ("3") ("Hello") ("</s>")
        = ("<s>Ciao</s>")
    ∧ (replace_content overrideCtx ("3") ("Hello")).body = ("Ciao") := by
  refine ⟨by decide, ?_⟩
  have h := override_beats_no_translation overrideCtx ⟨"Ciao", "r"⟩
    ("<s>") ("3") ("Hello") ("</s>") (by decide) (by decide) (by decide)
  exact ⟨h.1, h.2⟩

/-- C6: re-running the cascade on its own output is a no-op for any record whose
id is in the global override map or in the global no-translation set. -/
theorem cascade_idempotent_on_override_notr (ctx : TransCtx)
    (string_id bodyText : String)
    (h : (alookup ctx.global_override_translations string_id).isSome = true
         ∨ ctx.global_no_translation_ids.contains string_id = true) :
    (replace_content ctx string_id
        (replace_content ctx string_id bodyText).body).body
      = (replace_content ctx string_id bodyText).body := by
  cases hov : alookup ctx.global_override_translations string_id with
  | some ov =>
    cases he : (stripL bodyText.data).isEmpty with
    | true =>
      rw [replace_content_of_empty ctx string_id bodyText he]
      rw [replace_content_of_empty ctx string_id bodyText he]
    | false =>
      rw [replace_content_of_override ctx ov string_id bodyText he hov]
      cases he2 : (stripL ov.translation.data).isEmpty with
      | true => rw [replace_content_of_empty ctx string_id ov.translation he2]
      | false => rw [replace_content_of_override ctx ov string_id ov.translation he2 hov]
  | none =>
    have hnt : ctx.global_no_translation_ids.contains string_id = true := by
      rcases h with h1 | h1
      · rw [hov] at h1; exact absurd h1 (by simp)
      · exact h1
    cases he : (stripL bodyText.data).isEmpty with
    | true =>
      rw [replace_content_of_empty ctx string_id bodyText he]
      rw [replace_content_of_empty ctx string_id bodyText he]
    | false =>
      rw [replace_content_of_notr ctx string_id bodyText he hov hnt]
      rw [replace_content_of_notr ctx string_id bodyText he hov hnt]

/-- Witness for C6 at the concrete state `overrideCtx`. -/
theorem cascade_idempotent_on_override_notr_witness :
    ((alookup overrideCtx.global_override_translations ("3")).isSome = true
      ∨ overrideCtx.global_no_translation_ids.contains ("3") = true)
    ∧ (replace_content overrideCtx ("3")
          (replace_content overrideCtx ("3") ("Hello")).body).body
        = (replace_content overrideCtx ("3") ("Hello")).body :=
  ⟨Or.inl (by decide),
   cascade_idempotent_on_override_notr overrideCtx ("3") ("Hello")
     (Or.inl (by decide))⟩

/-- C8: a record whose text is empty or whitespace-only is passed through
byte-identically — even when its id has override / no-translation / transform
entries — and none of the counters change (source lines 660-662 run before any
registry check). -/
theorem empty_text_passthrough (ctx : TransCtx)
    (opening string_id bodyText closing : String)
    (he : (stripL bodyText.data).isEmpty = true) :
    replace_content ctx string_id bodyText = ⟨bodyText, 0, 0, 0⟩
    ∧ replaceFragment ctx opening string_id bodyText closing
        = opening ++ bodyText ++ closing := by
  have h := replace_content_of_empty ctx string_id bodyText he
  exact ⟨h, by unfold replaceFragment; rw [h]⟩

/-- Witness for C8: a whitespace-only record whose id `"3"` *does* have both an
override entry and a no-translation entry in `overrideCtx`. -/
theorem empty_text_passthrough_witness :
    ((stripL ("  " : String).data).isEmpty = true
      ∧ (alookup overrideCtx.global_override_translations ("3")).isSome = true
      ∧ overrideCtx.global_no_translation_ids.contains ("3") = true)
    ∧ replace_content overrideCtx ("3") ("  ") = ⟨"  ", 0, 0, 0⟩
    ∧ replaceFragment overrideCtx ("<s>") ("3") ("  ") ("</s>")
        = ("<s>  </s>") := by
  refine ⟨by decide, ?_⟩
  have h := empty_text_passthrough overrideCtx ("<s>") ("3") ("  ") ("</s>")
    (by decide)
  exact ⟨h.1, h.2⟩

/-! ### C2: the §8 "Fire type" scenario

The spec's scenario claims the output is `"This move is Fuoco type."`.  On the
code it is not: the context `"This move is Fire type."` contains the
conversational phrase marker `"this move"` (source line 545), so
`get_contextual_translation` classifies it as a description and refuses to
translate the single word `"Fire"` (lines 552-553); the record is emitted
unchanged and counted as not translated. -/

/-- C2 counterexample: with the type dictionary `{"Fire": "Fuoco"}` and every
other dictionary and the registry empty, record `id="5"`,
text `"This move is Fire type."` does **not** produce
`"This move is Fuoco type."`; it produces the original text. -/
theorem fire_type_scenario_cex :
    (replace_content fireCtx ("5") ("This move is Fire type.")).body
        = ("This move is Fire type.")
    ∧ ¬ ((replace_content fireCtx ("5") ("This move is Fire type.")).body
        = ("This move is Fuoco type.")) := by
  decide

/-- C2 amended: in that state the record is emitted unchanged and counted as
not translated, because the phrase marker `"this move"` makes the context a
description, which blocks the contextual translation of the single-word term
`"Fire"`. -/
theorem fire_type_scenario_amended :
    replace_content fireCtx ("5") ("This move is Fire type.")
      = ⟨"This move is Fire type.", 0, 1, 0⟩
    ∧ get_contextual_translation fireCtx ("Fire") ("This move is Fire type.")
      = none := by
  decide

/-! ### C4: the Contextual Resolver on `"Psychic"`

Step 9 of the resolver (source line 603-604) sends the context `"Psychic"` to
the *generic* dictionary: no earlier step consults the type dictionary, because
the context has no parentheses and contains no type-indicator word.  So with
`"Psychic"` a key of the type dictionary only, the resolver returns `none`, not
the type dictionary's entry.  The long-context half of the claim does hold. -/

/-- C4 counterexample: with `"Psychic" ↦ "Psico"` in the type dictionary (and
the other dictionaries empty), `resolve("Psychic", "Psychic")` returns `none`,
not the type dictionary's translation. -/
theorem psychic_resolver_cex :
    get_contextual_translation psychicCtx ("Psychic") ("Psychic") = none
    ∧ alookup psychicCtx.type_translations ("Psychic") = some ("Psico") := by
  decide

/-- C4 amended: whenever `"Psychic"` is not a key of the item, move or ability
dictionaries, `resolve("Psychic", "Psychic")` falls through to the generic
dictionary (hence `none` when — as in the claim's state — `"Psychic"` is a key
of the type dictionary only); and for the 112-character context the resolver
always returns `none`. -/
theorem psychic_resolver_amended (ctx : TransCtx)
    (hitem : alookup ctx.item_translations ("Psychic") = none)
    (hmove : alookup ctx.move_translations ("Psychic") = none)
    (habil : alookup ctx.ability_translations ("Psychic") = none) :
    get_contextual_translation ctx ("Psychic") ("Psychic")
      = alookup ctx.translations ("Psychic")
    ∧ get_contextual_translation ctx ("Psychic")
        ("Hello! It is super effective because of Psychic energy and much more descriptive text exceeding fifty characters")
      = none := by
  constructor
  · unfold get_contextual_translation
    simp +decide [hitem, hmove, habil]
  · rfl

/-- Witness for C4's amended theorem at the concrete state `psychicCtx`. -/
theorem psychic_resolver_amended_witness :
    (alookup psychicCtx.item_translations ("Psychic") = none
      ∧ alookup psychicCtx.move_translations ("Psychic") = none
      ∧ alookup psychicCtx.ability_translations ("Psychic") = none)
    ∧ get_contextual_translation psychicCtx ("Psychic") ("Psychic")
        = alookup psychicCtx.translations ("Psychic")
    ∧ get_contextual_translation psychicCtx ("Psychic")
        ("Hello! It is super effective because of Psychic energy and much more descriptive text exceeding fifty characters")
      = none := by
  refine ⟨by decide, ?_⟩
  exact psychic_resolver_amended psychicCtx (by decide) (by decide) (by decide)

/-! ### Template-fill failure lemmas (for C3) -/

theorem alookup_eq_none_of_keys {α : Type} (m : List (String × α)) (k : String)
    (h : ∀ p ∈ m, p.1 ≠ k) : alookup m k = none := by
  induction m with
  | nil => rfl
  | cons p t ih =>
    obtain ⟨k0, v0⟩ := p
    have hk : (k0 == k) = false :=
      beq_eq_false_iff_ne.mpr (h (k0, v0) (List.mem_cons_self _ _))
    unfold alookup
    rw [hk]
    exact ih fun q hq => h q (List.mem_cons_of_mem _ hq)

theorem groupVars_keys (i : Nat) (gs : List String) :
    ∀ p ∈ groupVars i gs, p.1 ∈ groupNames i gs := by
  induction gs generalizing i with
  | nil => intro p hp; cases hp
  | cons g rest ih =>
    intro p hp
    cases hp with
    | head => exact List.mem_cons_self _ _
    | tail _ hm => exact List.mem_cons_of_mem _ (ih (i + 1) p hm)

theorem mkTemplateVars_keys (o : String) (m : RMatch) (tv : String) :
    ∀ p ∈ mkTemplateVars o m tv, p.1 ∈ templateVarNames m := by
  intro p hp
  unfold mkTemplateVars at hp
  unfold templateVarNames
  rcases List.mem_cons.mp hp with h | hp
  · subst h; exact List.mem_cons_self _ _
  rcases List.mem_cons.mp hp with h | hp
  · subst h; exact List.mem_cons_of_mem _ (List.mem_cons_self _ _)
  rcases List.mem_append.mp hp with h1 | h1
  · exact List.mem_cons_of_mem _ (List.mem_cons_of_mem _
      (List.mem_append.mpr (Or.inl (groupVars_keys 1 m.groups p h1))))
  · have h2 : p.1 ∈ [("translated" : String)] := by
      rcases List.mem_cons.mp h1 with h | h
      · subst h; exact List.mem_cons_self _ _
      · cases h
    exact List.mem_cons_of_mem _ (List.mem_cons_of_mem _
      (List.mem_append.mpr (Or.inr h2)))

theorem formatTemplate_none_of_missing (vars : List (String × String))
    (tpl : List TItem) (n : String) (hmem : TItem.var n ∈ tpl)
    (hn : alookup vars n = none) : formatTemplate vars tpl = none := by
  induction tpl with
  | nil => cases hmem
  | cons it rest ih =>
    cases hmem with
    | head =>
      unfold formatTemplate
      rw [hn]
    | tail _ hm =>
      cases it with
      | lit s =>
        unfold formatTemplate
        rw [ih hm]
        rfl
      | var n' =>
        unfold formatTemplate
        cases hlk : alookup vars n' with
        | none => rfl
        | some v =>
          rw [ih hm]
          rfl

/-- A template with an undefined variable makes `str.format` raise `KeyError`,
whatever `translated` was resolved to. -/
theorem formatTemplate_none_of_undefined (o : String) (m : RMatch) (tv : String)
    (tpl : List TItem) (hbad : hasUndefinedTemplateVar tpl m = true) :
    formatTemplate (mkTemplateVars o m tv) tpl = none := by
  unfold hasUndefinedTemplateVar at hbad
  rw [List.any_eq_true] at hbad
  obtain ⟨it, hit, hprop⟩ := hbad
  cases it with
  | lit s => simp at hprop
  | var n =>
    have hn : n ∉ templateVarNames m := by
      simp only [Bool.not_eq_true'] at hprop
      simpa using hprop
    exact formatTemplate_none_of_missing _ tpl n hit
      (alookup_eq_none_of_keys _ n fun p hp hpk =>
        hn (hpk ▸ mkTemplateVars_keys o m tv p hp))

/-! ### C3: behaviour after a transform-template `KeyError`

The claim says the record's emitted output equals its original text.  In the
code the `except KeyError` handler (source lines 736-737) only logs; the `break`
on line 740 leaves the transform block, and execution *continues with the rest
of the cascade* (legacy special cases and the default path), which can — and in
the counterexample does — translate the record. -/

/-- C3 counterexample: in `transformCtx` the only transform pattern for id
`"7"` matches `"Fire type"` but its template names the undefined variable
`nope`; the emitted output is `"Fuoco type"` — the default path's partial
substitution — not the original text. -/
theorem transform_template_error_cex :
    (replace_content transformCtx ("7") ("Fire type")).body = ("Fuoco type")
    ∧ ¬ ((replace_content transformCtx ("7") ("Fire type")).body
        = ("Fire type")) := by
  decide

/-- C3 amended: when the first (and only) matching transform pattern's template
references an undefined variable, the error is non-fatal and confined to the
record, but instead of emitting the original text the cascade falls through to
the remaining steps (legacy special cases, then the default path): the result
is exactly `afterTransform`, with only the special-cases counter incremented by
the attempted transform. -/
theorem transform_template_error_falls_through (ctx : TransCtx)
    (string_id bodyText : String) (td : TransformPayload) (p : PatternConfig)
    (rg : String → Option RMatch) (tpl : List TItem) (m : RMatch)
    (hne : (stripL bodyText.data).isEmpty = false)
    (hnov : alookup ctx.global_override_translations string_id = none)
    (hnnt : ctx.global_no_translation_ids.contains string_id = false)
    (htd : alookup ctx.global_transform_translations string_id = some td)
    (hps : td.patterns = [p])
    (hrg : p.regex = some rg)
    (htp : p.template = some tpl)
    (hm : rg (⟨stripL bodyText.data⟩ : String) = some m)
    (hbad : hasUndefinedTemplateVar tpl m = true) :
    replace_content ctx string_id bodyText
      = ⟨(afterTransform ctx string_id bodyText).body,
         (afterTransform ctx string_id bodyText).dTrans,
         (afterTransform ctx string_id bodyText).dNoTrans,
         (afterTransform ctx string_id bodyText).dSpecial + 1⟩ := by
  have hnnt' : ¬ string_id ∈ ctx.global_no_translation_ids := by
    simpa using hnnt
  have hfmt : ∀ tv, formatTemplate
      (mkTemplateVars (⟨stripL bodyText.data⟩ : String) m tv) tpl = none :=
    fun tv => formatTemplate_none_of_undefined _ m tv tpl hbad
  have hrun : runTransformPatterns ctx (⟨stripL bodyText.data⟩ : String) [p]
      = TOutcome.pass := by
    unfold runTransformPatterns
    rw [hrg, htp]
    simp only [hm, hfmt]
  unfold replace_content
  simp only [hne, Bool.false_eq_true, if_false, hnov, hnnt', ite_false, htd,
    hps, hrun]
  simp [hnnt']

/-- Witness for C3's amended theorem at the concrete state `transformCtx`. -/
theorem transform_template_error_falls_through_witness :
    ((stripL ("Fire type" : String).data).isEmpty = false
      ∧ (alookup transformCtx.global_transform_translations ("7")).isSome = true
      ∧ rgFire ("Fire type") = some ⟨"Fire type", []⟩
      ∧ hasUndefinedTemplateVar [TItem.var ("nope")] ⟨"Fire type", []⟩ = true)
    ∧ replace_content transformCtx ("7") ("Fire type")
      = ⟨(afterTransform transformCtx ("7") ("Fire type")).body,
         (afterTransform transformCtx ("7") ("Fire type")).dTrans,
         (afterTransform transformCtx ("7") ("Fire type")).dNoTrans,
         (afterTransform transformCtx ("7") ("Fire type")).dSpecial + 1⟩ := by
  refine ⟨⟨by decide, by decide, by decide, by decide⟩, ?_⟩
  exact transform_template_error_falls_through transformCtx ("7") ("Fire type")
    ⟨[badVarPattern], "r"⟩ badVarPattern rgFire [TItem.var ("nope")]
    ⟨"Fire type", []⟩ (by decide) (by decide) (by decide) rfl
    rfl rfl rfl (by decide) (by decide)

/-! ### Decimal-representation lemmas (for C5, C10) -/

theorem digitVal_digitChar (n : Nat) (h : n < 10) :
    digitVal (digitChar n) = some n := by
  interval_cases n <;> decide

theorem isPyDigit_digitChar (n : Nat) (h : n < 10) :
    isPyDigit (digitChar n) = true := by
  interval_cases n <;> decide

theorem natDigitsAux_ne_nil (f n : Nat) (h : n < f) : natDigitsAux f n ≠ [] := by
  match f with
  | 0 => omega
  | f' + 1 =>
    unfold natDigitsAux
    by_cases h10 : n < 10
    · simp [h10]
    · simp [h10]

theorem natDigitsAux_all_digit (f : Nat) :
    ∀ n, n < f → ∀ c ∈ natDigitsAux f n, isPyDigit c = true := by
  induction f with
  | zero => intro n h; omega
  | succ f' ih =>
    intro n h c hc
    unfold natDigitsAux at hc
    by_cases h10 : n < 10
    · rw [if_pos h10] at hc
      rcases List.mem_singleton.mp hc with rfl
      exact isPyDigit_digitChar n h10
    · rw [if_neg h10] at hc
      rcases List.mem_append.mp hc with h1 | h1
      · have hd : n / 10 < n := Nat.div_lt_self (by omega) (by omega)
        exact ih (n / 10) (by omega) c h1
      · rcases List.mem_singleton.mp h1 with rfl
        exact isPyDigit_digitChar (n % 10) (Nat.mod_lt n (by omega))

theorem pyDigit_beq_dash (c : Char) (h : isPyDigit c = true) :
    (c == '-') = false := by
  by_cases hc : c = '-'
  · subst hc; exact absurd h (by decide)
  · exact beq_eq_false_iff_ne.mpr hc

theorem pyDigit_beq_dot (c : Char) (h : isPyDigit c = true) :
    (c == '.') = false := by
  by_cases hc : c = '.'
  · subst hc; exact absurd h (by decide)
  · exact beq_eq_false_iff_ne.mpr hc

theorem parseDigitsAux_append (xs ys : List Char) :
    ∀ acc, parseDigitsAux acc (xs ++ ys)
      = match parseDigitsAux acc xs with
        | some r => parseDigitsAux r ys
        | none => none := by
  induction xs with
  | nil => intro acc; rfl
  | cons c rest ih =>
    intro acc
    cases hd : digitVal c with
    | some d =>
      simp only [List.cons_append, parseDigitsAux, hd]
      exact ih (acc * 10 + d)
    | none =>
      simp only [List.cons_append, parseDigitsAux, hd]

theorem parseDigitsAux_natDigitsAux (f : Nat) :
    ∀ n acc, n < f →
      parseDigitsAux acc (natDigitsAux f n)
        = some (acc * 10 ^ (natDigitsAux f n).length + n) := by
  induction f with
  | zero => intro n acc h; omega
  | succ f' ih =>
    intro n acc h
    by_cases h10 : n < 10
    · unfold natDigitsAux
      rw [if_pos h10]
      show parseDigitsAux acc [digitChar n] = _
      unfold parseDigitsAux
      rw [digitVal_digitChar n h10]
      unfold parseDigitsAux
      simp
    · unfold natDigitsAux
      rw [if_neg h10]
      rw [parseDigitsAux_append]
      have hdn : n / 10 < n := Nat.div_lt_self (by omega) (by omega)
      rw [ih (n / 10) acc (by omega)]
      show parseDigitsAux _ [digitChar (n % 10)] = _
      unfold parseDigitsAux
      rw [digitVal_digitChar (n % 10) (Nat.mod_lt n (by omega))]
      unfold parseDigitsAux
      congr 1
      rw [List.length_append, List.length_singleton, pow_succ]
      have hm := Nat.div_add_mod n 10
      ring_nf
      omega

theorem parseDigits_natStr (n : Nat) : parseDigits (natStr n).data = some n := by
  show parseDigits (natDigitsAux (n + 1) n) = some n
  have hne := natDigitsAux_ne_nil (n + 1) n (by omega)
  unfold parseDigits
  rw [if_neg (by simpa using hne)]
  rw [parseDigitsAux_natDigitsAux (n + 1) n 0 (by omega)]
  simp

theorem natStr_injective : Function.Injective natStr := by
  intro x y h
  have hx := parseDigits_natStr x
  rw [h, parseDigits_natStr y] at hx
  exact (Option.some_injective _ hx).symm

/-! ### `splitOnChar` lemmas (for C5, C10) -/

theorem splitOnChar_no_sep (sep : Char) (l : List Char)
    (h : ∀ c ∈ l, (c == sep) = false) : splitOnChar sep l = [l] := by
  induction l with
  | nil => rfl
  | cons c rest ih =>
    simp only [splitOnChar, h c (List.mem_cons_self _ _), Bool.false_eq_true,
      if_false, ih fun c hc => h c (List.mem_cons_of_mem _ hc)]

theorem splitOnChar_append (sep : Char) (xs ys : List Char)
    (h : ∀ c ∈ xs, (c == sep) = false) :
    splitOnChar sep (xs ++ sep :: ys) = xs :: splitOnChar sep ys := by
  induction xs with
  | nil =>
    show splitOnChar sep (sep :: ys) = _
    simp [splitOnChar]
  | cons c rest ih =>
    show splitOnChar sep (c :: (rest ++ sep :: ys)) = _
    simp only [splitOnChar, h c (List.mem_cons_self _ _), Bool.false_eq_true,
      if_false, ih fun c hc => h c (List.mem_cons_of_mem _ hc)]

/-! ### Range-guard and range-parse lemmas (for C5, C10) -/

theorem natStr_data_digits (n : Nat) :
    ∀ c ∈ (natStr n).data, isPyDigit c = true :=
  fun c hc => natDigitsAux_all_digit (n + 1) n (by omega) c hc

theorem rangeGuard_parts (da db : List Char)
    (hda : ∀ c ∈ da, isPyDigit c = true) (hdb : ∀ c ∈ db, isPyDigit c = true)
    (hne : da ≠ []) : rangeGuard (da ++ '-' :: db) = true := by
  unfold rangeGuard
  rw [Bool.and_eq_true, List.any_eq_true]
  constructor
  · exact ⟨'-', List.mem_append.mpr (Or.inr (List.mem_cons_self _ _)), by decide⟩
  · have hfa : da.filter (fun c => !(c == '-') && !(c == '.')) = da :=
      List.filter_eq_self.mpr fun c hc => by
        rw [pyDigit_beq_dash c (hda c hc), pyDigit_beq_dot c (hda c hc)]; rfl
    have hfb : db.filter (fun c => !(c == '-') && !(c == '.')) = db :=
      List.filter_eq_self.mpr fun c hc => by
        rw [pyDigit_beq_dash c (hdb c hc), pyDigit_beq_dot c (hdb c hc)]; rfl
    rw [List.filter_append, hfa, List.filter_cons]
    simp only [show ((!('-' == '-') && !('-' == '.')) = false) from rfl,
      Bool.false_eq_true, if_false, hfb]
    rw [Bool.and_eq_true, List.all_eq_true]
    constructor
    · cases he : da with
      | nil => exact absurd he hne
      | cons c rest => rfl
    · intro c hc
      rcases List.mem_append.mp hc with h1 | h1
      · exact hda c h1
      · exact hdb c h1

theorem rangeGuard_rangeId (a b : Nat) : rangeGuard (rangeId a b).data = true := by
  show rangeGuard ((natStr a).data ++ '-' :: (natStr b).data) = true
  exact rangeGuard_parts _ _ (natStr_data_digits a) (natStr_data_digits b)
    (natDigitsAux_ne_nil (a + 1) a (by omega))

theorem parseRangeParts_rangeId (a b : Nat) :
    parseRangeParts (rangeId a b).data = some (a, b) := by
  show parseRangeParts ((natStr a).data ++ '-' :: (natStr b).data) = some (a, b)
  unfold parseRangeParts
  rw [splitOnChar_append '-' _ _
        fun c hc => pyDigit_beq_dash c (natStr_data_digits a c hc),
      splitOnChar_no_sep '-' _
        fun c hc => pyDigit_beq_dash c (natStr_data_digits b c hc)]
  show (match parseDigits (natStr a).data, parseDigits (natStr b).data with
        | some x, some y => some (x, y)
        | _, _ => none) = _
  rw [parseDigits_natStr, parseDigits_natStr]

/-! ### Association-list and fold lemmas (for C5) -/

theorem alookup_append {α : Type} (xs ys : List (String × α)) (k : String) :
    alookup (xs ++ ys) k
      = match alookup xs k with
        | some v => some v
        | none => alookup ys k := by
  induction xs with
  | nil => rfl
  | cons p t ih =>
    obtain ⟨k0, v0⟩ := p
    show alookup ((k0, v0) :: (t ++ ys)) k = _
    by_cases h : (k0 == k) = true
    · simp [alookup, h]
    · rw [Bool.not_eq_true] at h
      simp only [alookup, h, Bool.false_eq_true, if_false]
      exact ih

theorem alookup_filter_self {α : Type} (m : List (String × α)) (k : String) :
    alookup (m.filter fun p => !(p.1 == k)) k = none := by
  induction m with
  | nil => rfl
  | cons p t ih =>
    obtain ⟨k0, v0⟩ := p
    rw [List.filter_cons]
    dsimp only
    by_cases h : (k0 == k) = true
    · simp only [h, Bool.not_true, Bool.false_eq_true, if_false]
      exact ih
    · rw [Bool.not_eq_true] at h
      simp only [h, Bool.not_false, if_true]
      simp only [alookup, h, Bool.false_eq_true, if_false]
      exact ih

theorem alookup_filter_ne {α : Type} (m : List (String × α)) (k k' : String)
    (h : (k' == k) = false) :
    alookup (m.filter fun p => !(p.1 == k')) k = alookup m k := by
  induction m with
  | nil => rfl
  | cons p t ih =>
    obtain ⟨k0, v0⟩ := p
    rw [List.filter_cons]
    dsimp only
    by_cases h0 : (k0 == k') = true
    · have hk0 : k0 = k' := beq_iff_eq.mp h0
      subst hk0
      simp only [h0, Bool.not_true, Bool.false_eq_true, if_false]
      simp only [alookup, h, Bool.false_eq_true, if_false]
      exact ih
    · rw [Bool.not_eq_true] at h0
      simp only [h0, Bool.not_false, if_true]
      by_cases hk : (k0 == k) = true
      · simp [alookup, hk]
      · rw [Bool.not_eq_true] at hk
        simp only [alookup, hk, Bool.false_eq_true, if_false]
        exact ih

theorem alookup_ainsert_self {α : Type} (m : List (String × α)) (k : String)
    (v : α) : alookup (ainsert m k v) k = some v := by
  unfold ainsert
  rw [alookup_append, alookup_filter_self]
  show alookup [(k, v)] k = some v
  simp [alookup]

theorem alookup_ainsert_ne {α : Type} (m : List (String × α)) (k k' : String)
    (v : α) (h : (k' == k) = false) :
    alookup (ainsert m k' v) k = alookup m k := by
  unfold ainsert
  rw [alookup_append, alookup_filter_ne m k k' h]
  cases alookup m k with
  | some v0 => rfl
  | none =>
    show alookup [(k', v)] k = none
    unfold alookup
    rw [h]
    rfl

theorem alookup_none_keys {α : Type} (m : List (String × α)) (k : String)
    (h : alookup m k = none) : ∀ p ∈ m, (p.1 == k) = false := by
  induction m with
  | nil => intro p hp; cases hp
  | cons q t ih =>
    obtain ⟨k0, v0⟩ := q
    intro p hp
    unfold alookup at h
    by_cases h0 : (k0 == k) = true
    · rw [h0] at h; cases h
    · rw [Bool.not_eq_true] at h0
      rw [h0] at h
      rcases List.mem_cons.mp hp with rfl | hp'
      · exact h0
      · exact ih h p hp'

theorem length_ainsert_fresh {α : Type} (m : List (String × α)) (k : String)
    (v : α) (h : alookup m k = none) :
    (ainsert m k v).length = m.length + 1 := by
  unfold ainsert
  rw [List.length_append]
  have hf : m.filter (fun p => !(p.1 == k)) = m :=
    List.filter_eq_self.mpr fun p hp => by
      rw [alookup_none_keys m k h p hp]; rfl
  rw [hf]
  rfl

theorem alookup_foldl_ainsert_not_mem {α : Type} (v : α) (ks : List Nat) :
    ∀ (m : List (String × α)) (s : String), (∀ j ∈ ks, (natStr j == s) = false) →
      alookup (ks.foldl (fun m j => ainsert m (natStr j) v) m) s = alookup m s := by
  induction ks with
  | nil => intro m s _; rfl
  | cons k ks ih =>
    intro m s h
    show alookup (ks.foldl _ (ainsert m (natStr k) v)) s = _
    rw [ih (ainsert m (natStr k) v) s fun j hj => h j (List.mem_cons_of_mem _ hj)]
    exact alookup_ainsert_ne m s (natStr k) v (h k (List.mem_cons_self _ _))

theorem alookup_foldl_ainsert_mem {α : Type} (v : α) (ks : List Nat) :
    ∀ (m : List (String × α)) (i : Nat), i ∈ ks →
      alookup (ks.foldl (fun m j => ainsert m (natStr j) v) m) (natStr i)
        = some v := by
  induction ks with
  | nil => intro m i h; cases h
  | cons k ks ih =>
    intro m i h
    show alookup (ks.foldl _ (ainsert m (natStr k) v)) (natStr i) = some v
    by_cases hik : i ∈ ks
    · exact ih (ainsert m (natStr k) v) i hik
    · have hk : k = i := by
        rcases List.mem_cons.mp h with rfl | h'
        · rfl
        · exact absurd h' hik
      subst hk
      rw [alookup_foldl_ainsert_not_mem v ks _ (natStr k)
            fun j hj => beq_eq_false_iff_ne.mpr fun e =>
              hik (natStr_injective e ▸ hj)]
      exact alookup_ainsert_self m (natStr k) v

theorem length_foldl_ainsert {α : Type} (v : α) (ks : List Nat) :
    ∀ (m : List (String × α)), (∀ j ∈ ks, alookup m (natStr j) = none) →
      ks.Nodup →
      (ks.foldl (fun m j => ainsert m (natStr j) v) m).length
        = m.length + ks.length := by
  induction ks with
  | nil => intro m _ _; rfl
  | cons k ks ih =>
    intro m hfresh hnd
    show (ks.foldl _ (ainsert m (natStr k) v)).length = _
    have hnd' := List.nodup_cons.mp hnd
    have hfresh' : ∀ j ∈ ks, alookup (ainsert m (natStr k) v) (natStr j) = none :=
      fun j hj => by
        rw [alookup_ainsert_ne m (natStr j) (natStr k) v
              (beq_eq_false_iff_ne.mpr fun e =>
                hnd'.1 (natStr_injective e ▸ hj))]
        exact hfresh j (List.mem_cons_of_mem _ hj)
    rw [ih (ainsert m (natStr k) v) hfresh' hnd'.2]
    rw [length_ainsert_fresh m (natStr k) v (hfresh k (List.mem_cons_self _ _))]
    rw [List.length_cons]
    omega

/-! ### `expandRange` lemmas (for C5, C10) -/

theorem mem_expandRange (a b i : Nat) : i ∈ expandRange a b ↔ a ≤ i ∧ i ≤ b ∧ a ≤ b := by
  unfold expandRange
  rw [List.mem_map]
  constructor
  · rintro ⟨j, hj, rfl⟩
    rw [List.mem_range] at hj
    omega
  · rintro ⟨h1, h2, _⟩
    exact ⟨i - a, by rw [List.mem_range]; omega, by omega⟩

theorem length_expandRange (a b : Nat) : (expandRange a b).length = b + 1 - a := by
  unfold expandRange
  rw [List.length_map, List.length_range]

theorem nodup_expandRange (a b : Nat) : (expandRange a b).Nodup :=
  (List.nodup_range _).map fun x y h => by omega

theorem expandRange_eq_nil (a b : Nat) (h : b < a) : expandRange a b = [] := by
  unfold expandRange
  have h0 : b + 1 - a = 0 := by omega
  rw [h0]
  rfl

/-! ### Loader-step computation lemmas (for C5, C10) -/

theorem loadOverrideStep_range (st : List (String × OverridePayload) × Nat)
    (a b : Nat) (tr rs : String) :
    loadOverrideStep st ⟨rangeId a b, tr, rs⟩
      = ((expandRange a b).foldl
           (fun m i => ainsert m (natStr i) ⟨tr, rs⟩) st.1, st.2) := by
  simp [loadOverrideStep, rangeGuard_rangeId, parseRangeParts_rangeId]

theorem loadNoTranslationStep_range (st : List String × Nat) (a b : Nat)
    (comment : String) :
    loadNoTranslationStep st ⟨rangeId a b, comment⟩
      = ((expandRange a b).foldl (fun s i => sinsert s (natStr i)) st.1, st.2) := by
  simp [loadNoTranslationStep, rangeGuard_rangeId, parseRangeParts_rangeId]

/-! ### C5: range expansion is exact and later-loaded ranges win -/

/-- C5: loading the single `override_translation` entry with range id
`"<a>-<b>"` (`a ≤ b`) stores exactly `b − a + 1` entries — one per integer id in
the inclusive range, each with the entry's payload unchanged — and logs no
malformed-range error; and when two ranges both cover an id `i`, the
later-loaded entry's payload is the one stored for `i`. -/
theorem range_expansion_exact :
    (∀ (a b : Nat) (tr rs : String), a ≤ b →
      (loadOverrideTranslations [⟨rangeId a b, tr, rs⟩]).1.length = b - a + 1
      ∧ (∀ i, a ≤ i → i ≤ b →
          alookup (loadOverrideTranslations [⟨rangeId a b, tr, rs⟩]).1 (natStr i)
            = some ⟨tr, rs⟩)
      ∧ (loadOverrideTranslations [⟨rangeId a b, tr, rs⟩]).2 = 0)
    ∧ (∀ (a b c d : Nat) (tr1 rs1 tr2 rs2 : String) (i : Nat),
        a ≤ i → i ≤ b → c ≤ i → i ≤ d →
        alookup (loadOverrideTranslations
            [⟨rangeId a b, tr1, rs1⟩, ⟨rangeId c d, tr2, rs2⟩]).1 (natStr i)
          = some ⟨tr2, rs2⟩) := by
  constructor
  · intro a b tr rs hab
    have hload : loadOverrideTranslations [⟨rangeId a b, tr, rs⟩]
        = ((expandRange a b).foldl
             (fun m i => ainsert m (natStr i) ⟨tr, rs⟩) [], 0) := by
      show loadOverrideStep ([], 0) ⟨rangeId a b, tr, rs⟩ = _
      rw [loadOverrideStep_range]
    rw [hload]
    refine ⟨?_, ?_, rfl⟩
    · show ((expandRange a b).foldl _ []).length = _
      rw [length_foldl_ainsert _ _ [] (fun j _ => rfl) (nodup_expandRange a b)]
      rw [length_expandRange]
      show 0 + (b + 1 - a) = b - a + 1
      omega
    · intro i h1 h2
      exact alookup_foldl_ainsert_mem _ _ [] i
        ((mem_expandRange a b i).mpr ⟨h1, h2, hab⟩)
  · intro a b c d tr1 rs1 tr2 rs2 i h1 h2 h3 h4
    have hload : loadOverrideTranslations
        [⟨rangeId a b, tr1, rs1⟩, ⟨rangeId c d, tr2, rs2⟩]
        = ((expandRange c d).foldl
             (fun m j => ainsert m (natStr j) ⟨tr2, rs2⟩)
             ((expandRange a b).foldl
               (fun m j => ainsert m (natStr j) ⟨tr1, rs1⟩) []), 0) := by
      show loadOverrideStep (loadOverrideStep ([], 0) ⟨rangeId a b, tr1, rs1⟩)
          ⟨rangeId c d, tr2, rs2⟩ = _
      rw [loadOverrideStep_range ([], 0) a b tr1 rs1]
      rw [loadOverrideStep_range _ c d tr2 rs2]
    rw [hload]
    exact alookup_foldl_ainsert_mem _ _ _ i
      ((mem_expandRange c d i).mpr ⟨h3, h4, by omega⟩)

/-- Witness for C5 at the ranges `"2-4"`, `"3-5"` and id `3`. -/
theorem range_expansion_exact_witness :
    ((2 : Nat) ≤ 4
      ∧ (loadOverrideTranslations [⟨rangeId 2 4, "x", "r"⟩]).1.length = 3
      ∧ alookup (loadOverrideTranslations [⟨rangeId 2 4, "x", "r"⟩]).1 (natStr 3)
          = some ⟨"x", "r"⟩
      ∧ (loadOverrideTranslations [⟨rangeId 2 4, "x", "r"⟩]).2 = 0)
    ∧ alookup (loadOverrideTranslations
          [⟨rangeId 2 4, "x", "r"⟩, ⟨rangeId 3 5, "y", "s"⟩]).1 (natStr 3)
        = some ⟨"y", "s"⟩ := by
  refine ⟨⟨by decide, ?_, ?_, ?_⟩, ?_⟩
  · exact (range_expansion_exact.1 2 4 ("x") ("r") (by decide)).1
  · exact (range_expansion_exact.1 2 4 ("x") ("r") (by decide)).2.1 3
      (by decide) (by decide)
  · exact (range_expansion_exact.1 2 4 ("x") ("r") (by decide)).2.2
  · exact range_expansion_exact.2 2 4 3 5 ("x") ("r") ("y") ("s") 3
      (by decide) (by decide) (by decide) (by decide)

/-! ### C10: reversed ranges are silently dropped -/

/-- C10: a range `"<a>-<b>"` with `a > b` passes the range guard and parses,
but `range(a, b + 1)` is empty: loading succeeds, stores zero entries, and logs
no malformed-range error — in both the `override_translation` and the
`no_translation` loaders. -/
theorem reversed_range_silently_dropped (a b : Nat) (tr rs comment : String)
    (h : b < a) :
    loadOverrideTranslations [⟨rangeId a b, tr, rs⟩] = ([], 0)
    ∧ loadNoTranslationIds [⟨rangeId a b, comment⟩] = ([], 0) := by
  have hexp := expandRange_eq_nil a b h
  constructor
  · show loadOverrideStep ([], 0) ⟨rangeId a b, tr, rs⟩ = _
    rw [loadOverrideStep_range, hexp]
    rfl
  · show loadNoTranslationStep ([], 0) ⟨rangeId a b, comment⟩ = _
    rw [loadNoTranslationStep_range, hexp]
    rfl

/-- Witness for C10 at the reversed range `"5-3"`. -/
theorem reversed_range_silently_dropped_witness :
    (3 : Nat) < 5
    ∧ loadOverrideTranslations [⟨rangeId 5 3, "x", "r"⟩] = ([], 0)
    ∧ loadNoTranslationIds [⟨rangeId 5 3, "c"⟩] = ([], 0) :=
  ⟨by decide,
   (reversed_range_silently_dropped 5 3 ("x") ("r") ("c") (by decide)).1,
   (reversed_range_silently_dropped 5 3 ("x") ("r") ("c") (by decide)).2⟩

/-! ### C7: the derived term index

`all_terms` is a Python `set`; `sorted` is stable, so the order of equal-length
terms is the set's iteration order — which is unspecified (and, for strings,
randomized per process), *not* the discovery order the claim states.  The
distinct-keys and descending-length parts hold for every enumeration; the
tie-break part fails for a legitimate enumeration. -/

theorem nodup_of_listNodupB (l : List String) (h : listNodupB l = true) :
    l.Nodup := by
  induction l with
  | nil => exact List.nodup_nil
  | cons a t ih =>
    unfold listNodupB at h
    rw [Bool.and_eq_true] at h
    refine List.nodup_cons.mpr ⟨?_, ih h.2⟩
    intro hmem
    have hc : t.contains a = true := by simpa using hmem
    rw [hc] at h
    simp at h

/-- C7 counterexample: for the generic dictionary `{"ab":"x"}` and type
dictionary `{"cd":"y"}`, discovery order is `["ab", "cd"]`, yet the legitimate
set enumeration `["cd", "ab"]` produces the term index `["cd", "ab"]`:
the equal-length term discovered *later* precedes the one discovered earlier. -/
theorem term_index_tiebreak_cex :
    isSetEnumB ["cd", "ab"]
        (discoveryKeys [("ab", "x")] [("cd", "y")] [] [] []) = true
    ∧ discoveryKeys [("ab", "x")] [("cd", "y")] [] [] [] = ["ab", "cd"]
    ∧ sorted_terms_of ["cd", "ab"] = ["cd", "ab"]
    ∧ ("ab" : String).length = ("cd" : String).length := by
  decide

/-- C7 amended: for *every* enumeration of the set of distinct dictionary keys,
the term index contains exactly the distinct keys, each exactly once, in
non-increasing length order; the relative order of equal-length terms is the
(unspecified) set iteration order, not discovery order. -/
theorem term_index_sorted_amended (g ty mv ab it : Dict) (enum : List String)
    (h : isSetEnumB enum (discoveryKeys g ty mv ab it) = true) :
    (∀ k, k ∈ sorted_terms_of enum ↔ k ∈ discoveryKeys g ty mv ab it)
    ∧ (sorted_terms_of enum).Nodup
    ∧ List.Sorted lenGE (sorted_terms_of enum) := by
  unfold isSetEnumB at h
  rw [Bool.and_eq_true, Bool.and_eq_true] at h
  obtain ⟨⟨hnd, hsub1⟩, hsub2⟩ := h
  rw [List.all_eq_true] at hsub1 hsub2
  have hperm : List.Perm (sorted_terms_of enum) enum :=
    List.perm_insertionSort lenGE enum
  refine ⟨?_, ?_, List.sorted_insertionSort lenGE enum⟩
  · intro k
    rw [hperm.mem_iff]
    constructor
    · intro hk
      have := hsub2 k hk
      simpa using this
    · intro hk
      have := hsub1 k hk
      simpa using this
  · exact hperm.symm.nodup (nodup_of_listNodupB enum hnd)

/-- Witness for C7's amended theorem at the counterexample's dictionaries and
enumeration. -/
theorem term_index_sorted_amended_witness :
    isSetEnumB ["cd", "ab"]
        (discoveryKeys [("ab", "x")] [("cd", "y")] [] [] []) = true
    ∧ ((∀ k, k ∈ sorted_terms_of ["cd", "ab"]
          ↔ k ∈ discoveryKeys [("ab", "x")] [("cd", "y")] [] [] [])
      ∧ (sorted_terms_of ["cd", "ab"]).Nodup
      ∧ List.Sorted lenGE (sorted_terms_of ["cd", "ab"])) := by
  refine ⟨by decide, ?_⟩
  exact term_index_sorted_amended [("ab", "x")] [("cd", "y")] [] [] []
    ["cd", "ab"] (by decide)

/-! ### C9: the deferred block applicator -/

/-- C9: every `add_block` entry whose target path matches the processed
document and whose content is non-empty splices the literal content followed by
a newline immediately before the last `"</"` of the then-current output text;
if that text has no `"</"`, the entry is skipped and the failure is logged
(counted).  The pipeline applies these entries to the *already-substituted*
document text, strictly after all record substitutions, so the inserted content
is never itself looked up or substituted. -/
theorem add_block_insertion (ctx : TransCtx) (doc : List DocSeg)
    (fp inputFile : String) (bi : BlockInfo) (st : String × Nat)
    (hfp : fp = normalizeSlashes inputFile)
    (hc : bi.content.data.isEmpty = false) :
    (∀ p, lastInfixPos st.1.data ['<', '/'] = some p →
      applyAddBlockStep inputFile st (fp, bi)
        = (⟨st.1.data.take p ++ bi.content.data
            ++ '\n' :: st.1.data.drop p⟩, st.2))
    ∧ (lastInfixPos st.1.data ['<', '/'] = none →
      applyAddBlockStep inputFile st (fp, bi) = (st.1, st.2 + 1))
    ∧ process_document ctx doc [(fp, bi)] inputFile
        = applyAddBlockStep inputFile (substituteDoc ctx doc, 0) (fp, bi) := by
  refine ⟨?_, ?_, rfl⟩
  · intro p hp
    unfold applyAddBlockStep
    rw [hfp]
    simp [hc, hp]
  · intro hp
    unfold applyAddBlockStep
    rw [hfp]
    simp [hc, hp]

/-- Witness for C9: the one-record document `addBlockDoc`, target `"foo.xml"`,
content `"<b>B</b>"`, inserted before the closing `"</string>"` (position 21 of
the substituted output). -/
theorem add_block_insertion_witness :
    (("foo.xml" : String) = normalizeSlashes ("foo.xml")
      ∧ ("<b>B</b>" : String).data.isEmpty = false
      ∧ lastInfixPos (substituteDoc emptyCtx addBlockDoc).data ['<', '/']
          = some 21)
    ∧ applyAddBlockStep ("foo.xml") (substituteDoc emptyCtx addBlockDoc, 0)
        ("foo.xml", ⟨"<b>B</b>", "r"⟩)
        = (⟨(substituteDoc emptyCtx addBlockDoc).data.take 21
            ++ ("<b>B</b>" : String).data
            ++ '\n' :: (substituteDoc emptyCtx addBlockDoc).data.drop 21⟩, 0)
    ∧ process_document emptyCtx addBlockDoc
        [("foo.xml", ⟨"<b>B</b>", "r"⟩)] ("foo.xml")
        = applyAddBlockStep ("foo.xml") (substituteDoc emptyCtx addBlockDoc, 0)
            ("foo.xml", ⟨"<b>B</b>", "r"⟩) := by
  refine ⟨⟨by decide, by decide, by decide⟩, ?_, ?_⟩
  · exact (add_block_insertion emptyCtx addBlockDoc ("foo.xml") ("foo.xml")
      ⟨"<b>B</b>", "r"⟩ (substituteDoc emptyCtx addBlockDoc, 0)
      (by decide) (by decide)).1 21 (by decide)
  · exact (add_block_insertion emptyCtx addBlockDoc ("foo.xml") ("foo.xml")
      ⟨"<b>B</b>", "r"⟩ (substituteDoc emptyCtx addBlockDoc, 0)
      (by decide) (by decide)).2.2

end PokeTranslator
